import Mathlib

/-!
Shallow embedding of the clapless audio-synchronisation core
(packages `internal/sync`, `internal/audio`) and proofs of the spec's
claims about it.

Modelling conventions, used throughout:
* Go `float64` samples and seconds are modelled by `ℚ` (exact arithmetic;
  floating-point rounding is abstracted away).  `math.Sqrt` is modelled by
  `Rat.sqrt`, which agrees with the real square root exactly on perfect
  squares; every concrete evaluation in this file only takes square roots
  of perfect squares, where the two coincide.
* Go `int` is modelled by `ℤ`; list indices and channel counts, which are
  always non-negative, by `ℕ`.
* Go `(T, error)` returns are modelled by `Except String T`.  Go formats
  numeric values into its error strings; the embedding keeps fixed
  descriptive strings (the claims only depend on which error is taken and
  on non-emptiness of messages, never on interpolated digits).
* The gonum FFT pipeline in `crossCorrelateFFT` (forward transform of both
  zero-padded signals, pointwise product with the conjugate, unnormalised
  inverse transform, division by the FFT size) computes, exactly, the
  circular cross-correlation of the two padded signals; the embedding
  states that correlation sum directly.
-/

/-- Equality of `Except` values is decidable componentwise; used to settle
concrete runs of the embedded fallible functions by `decide`. -/
instance {ε α : Type} [DecidableEq ε] [DecidableEq α] : DecidableEq (Except ε α) := fun a b =>
  match a, b with
  | .error e, .error f =>
    if h : e = f then .isTrue (by rw [h]) else .isFalse (by simp [h])
  | .error _, .ok _ => .isFalse (by simp)
  | .ok _, .error _ => .isFalse (by simp)
  | .ok x, .ok y =>
    if h : x = y then .isTrue (by rw [h]) else .isFalse (by simp [h])

namespace Clapless

/-- `OffsetResult` from `internal/sync` (part_001): detected offset and
confidence score. -/
structure OffsetResult where
  OffsetSamples : ℤ
  OffsetSeconds : ℚ
  Confidence : ℚ
  deriving DecidableEq, Repr

/-- `OverlapRegion` from `internal/sync/fine_tuner.go`. -/
structure OverlapRegion where
  StartSample : ℤ
  EndSample : ℤ
  DurationSec : ℚ
  deriving DecidableEq, Repr

/-- `FinetuneResult` from `internal/sync/fine_tuner.go`.  Fields Go leaves
at their zero value are written out explicitly at each construction site. -/
structure FinetuneResult where
  FineAdjustmentSamples : ℤ
  FineAdjustmentSeconds : ℚ
  Confidence : ℚ
  SegmentUsed : OverlapRegion
  Skipped : Bool
  SkipReason : String
  deriving DecidableEq, Repr

/-- `FileOffset` from `internal/sync/offset.go`.  The `*FinetuneResult`
pointer (nil when fine-tuning has not run) is an `Option`. -/
structure FileOffset where
  Path : String
  OffsetSamples : ℤ
  OffsetSeconds : ℚ
  FineAdjustmentSamples : ℤ
  FineAdjustmentSeconds : ℚ
  FinalOffsetSamples : ℤ
  FinalOffsetSeconds : ℚ
  PaddingSamples : ℤ
  PaddingSeconds : ℚ
  Confidence : ℚ
  IsEarliest : Bool
  FinetuneResult : Option FinetuneResult
  deriving DecidableEq, Repr

/-- `WAVData` from `internal/audio/wav.go` (the fields the sync core
reads; the `*audio.Format` pointer is I/O-only and omitted). -/
structure WAVData where
  Path : String
  SampleRate : ℤ
  Channels : ℕ
  BitDepth : ℤ
  Data : List ℚ
  deriving DecidableEq, Repr

/-- `GenerateSilence` from `internal/audio` (part_002):
`make([]float64, numSamples)` is a list of zeros. -/
def GenerateSilence (numSamples : ℕ) : List ℚ :=
  List.replicate numSamples 0

/-- `PrependSilence` from `internal/audio` (part_002). -/
def PrependSilence (data : List ℚ) (silenceSamples : ℤ) : List ℚ :=
  if silenceSamples ≤ 0 then data
  else GenerateSilence silenceSamples.toNat ++ data

/-- `ToMono` from `internal/audio/wav.go`: average interleaved channels.
`numSamples := len(data) / channels`; Go would panic on `channels = 0`
(unreachable: the decoder always reports at least one channel). -/
def ToMono (data : List ℚ) (channels : ℕ) : List ℚ :=
  if channels = 1 then data
  else
    let numSamples := data.length / channels
    (List.range numSamples).map fun i =>
      (((List.range channels).map fun ch => data.getD (i * channels + ch) 0).sum) / (channels : ℚ)

/-- The loop body of `downsample` (part_001): starting at the head, keep
the current sample and jump `f` samples ahead (`for i := 0; i < len(data);
i += factor`). -/
def downsampleGo (data : List ℚ) (f : ℕ) : List ℚ :=
  match data with
  | [] => []
  | x :: xs => x :: downsampleGo (xs.drop (f - 1)) f
termination_by data.length
decreasing_by
  simp only [List.length_drop, List.length_cons]
  omega

/-- `downsample` from part_001: `factor <= 1` is the identity, otherwise
keep every `factor`-th sample starting at index 0. -/
def downsample (data : List ℚ) (factor : ℤ) : List ℚ :=
  if factor ≤ 1 then data
  else downsampleGo data factor.toNat

/-- `normalize` from part_001: zero mean, unit variance, with standard
deviation 0 replaced by 1.  `math.Sqrt` is modelled by `Rat.sqrt` (see the
file header). -/
def normalize (data : List ℚ) : List ℚ :=
  if data.length = 0 then data
  else
    let mean := data.sum / (data.length : ℚ)
    let variance := ((data.map fun v => (v - mean) * (v - mean)).sum) / (data.length : ℚ)
    let stdDev := Rat.sqrt variance
    let stdDev := if stdDev = 0 then 1 else stdDev
    data.map fun v => (v - mean) / stdDev

/-- The doubling loop of `nextPowerOfTwo` (part_001), with explicit fuel:
`power` doubles from 1, so fewer than `n` steps are ever needed. -/
def nextPowerOfTwoAux : ℕ → ℕ → ℕ → ℕ
  | 0, _, power => power
  | fuel + 1, n, power => if power < n then nextPowerOfTwoAux fuel n (power * 2) else power

/-- `nextPowerOfTwo` from part_001: smallest power of two `≥ n` (for
`n = 0` it returns 1, like the Go loop). -/
def nextPowerOfTwo (n : ℕ) : ℕ :=
  nextPowerOfTwoAux n n 1

/-- `padToSize` from part_001: zero-pad on the right to `size` (input
returned unchanged when already long enough). -/
def padToSize (data : List ℚ) (size : ℕ) : List ℚ :=
  if size ≤ data.length then data
  else data ++ List.replicate (size - data.length) 0

/-- `crossCorrelateFFT` from part_001.  The FFT round trip (forward
transforms, product with the conjugate, unnormalised inverse, division by
`fftSize`) equals the circular cross-correlation
`c k = ∑ j, padded1[(j + k) % fftSize] * padded2[j]`, truncated to the
linear-correlation length `n`; the embedding states that sum directly. -/
def crossCorrelateFFT (signal1 signal2 : List ℚ) : List ℚ :=
  if signal1.length = 0 ∨ signal2.length = 0 then [0]
  else
    let n := signal1.length + signal2.length - 1
    let fftSize := nextPowerOfTwo n
    let padded1 := padToSize signal1 fftSize
    let padded2 := padToSize signal2 fftSize
    (List.range n).map fun k =>
      ∑ j ∈ Finset.range fftSize, padded1.getD ((j + k) % fftSize) 0 * padded2.getD j 0

/-- `findMaxPeak` from part_001: index and value of the maximum of the
correlation sequence (`(0, 0)` on empty input). -/
def findMaxPeak (correlation : List ℚ) : ℕ × ℚ :=
  match correlation with
  | [] => (0, 0)
  | c :: _ =>
    correlation.enum.foldl
      (fun best p => if p.2 > best.2 then (p.1, p.2) else best) ((0 : ℕ), c)

/-- `DetectOffset` from part_001: downsample, normalize, FFT
cross-correlation, peak extraction, mapping back to the original rate.
(The Go parameter is named `local`, a reserved word in Lean, hence
`localData`.) -/
def DetectOffset (mixed localData : List ℚ) (sampleRate segmentDuration downsampleFactor : ℤ) :
    Except String OffsetResult :=
  if mixed.length = 0 then .error "mixed audio data is empty"
  else if localData.length = 0 then .error "local audio data is empty"
  else
    let mixedCoarse := downsample mixed downsampleFactor
    let localCoarse := downsample localData downsampleFactor
    let mixedNorm := normalize mixedCoarse
    let localNorm := normalize localCoarse
    let correlation := crossCorrelateFFT mixedNorm localNorm
    let peak := findMaxPeak correlation
    let finalOffset : ℤ := (peak.1 : ℤ) * downsampleFactor
    .ok { OffsetSamples := finalOffset
          OffsetSeconds := (finalOffset : ℚ) / (sampleRate : ℚ)
          Confidence := peak.2 / (localNorm.length : ℚ) }

/-- `CalculatePadding` from `internal/sync/offset.go`: padding relative to
the minimum coarse offset.  After the length guard, `zipWith` pairs
`results[i]` with `filePaths[i]` exactly as the Go index loop does.  The
fine-tuning fields are Go zero values at this point. -/
def CalculatePadding (results : List OffsetResult) (filePaths : List String) (sampleRate : ℤ) :
    Except String (List FileOffset) :=
  if results.length ≠ filePaths.length then
    .error "mismatch between results and file paths"
  else
    match results with
    | [] => .error "no offset results provided"
    | r0 :: _ =>
      let minOffset := results.foldl (fun m r => min m r.OffsetSamples) r0.OffsetSamples
      .ok (List.zipWith
        (fun r path => show FileOffset from
          { Path := path
            OffsetSamples := r.OffsetSamples
            OffsetSeconds := r.OffsetSeconds
            FineAdjustmentSamples := 0
            FineAdjustmentSeconds := 0
            FinalOffsetSamples := 0
            FinalOffsetSeconds := 0
            PaddingSamples := r.OffsetSamples - minOffset
            PaddingSeconds := ((r.OffsetSamples - minOffset : ℤ) : ℚ) / (sampleRate : ℚ)
            Confidence := r.Confidence
            IsEarliest := r.OffsetSamples == minOffset
            FinetuneResult := none })
        results filePaths)

/-- `extractSegment` from `internal/sync/fine_tuner.go`: copy of
`data[startSample:endSample)` after the bounds check. -/
def extractSegment (data : List ℚ) (startSample endSample : ℤ) :
    Except String (List ℚ) :=
  if startSample < 0 ∨ endSample > (data.length : ℤ) ∨ startSample ≥ endSample then
    .error "invalid segment bounds"
  else
    .ok ((data.drop startSample.toNat).take (endSample - startSample).toNat)

/-- The per-track interval of the `findOverlappingRegion` loop body, on
the coarse-aligned timeline: the track starts at its coarse offset and
ends `monoSamples = len(Data) / Channels` later. -/
def trackInterval (f : WAVData) (fo : FileOffset) : ℤ × ℤ :=
  (fo.OffsetSamples, fo.OffsetSamples + ((f.Data.length / f.Channels : ℕ) : ℤ))

/-- `findOverlappingRegion` from `internal/sync/fine_tuner.go`.  The Go
loop walks `localFiles` by index and reads `fileOffsets[i]`; the `zipWith`
below is identical whenever the two lists have equal length (the only case
reachable without a Go panic, and the hypothesis every theorem carries).
The `i = 0` iteration initialises the running bounds, the others take the
maximum of the starts and the minimum of the ends. -/
def findOverlappingRegion (localFiles : List WAVData) (fileOffsets : List FileOffset)
    (sampleRate : ℤ) : Except String OverlapRegion :=
  if localFiles.length = 0 then .error "no local files provided"
  else
    let ivs := List.zipWith trackInterval localFiles fileOffsets
    match ivs with
    | [] => .error "no local files provided"
    | iv0 :: rest =>
      let overlapStart := rest.foldl (fun a p => max a p.1) iv0.1
      let overlapEnd := rest.foldl (fun a p => min a p.2) iv0.2
      if overlapEnd ≤ overlapStart then
        .error "no overlapping region found after coarse alignment"
      else
        .ok { StartSample := overlapStart
              EndSample := overlapEnd
              DurationSec := ((overlapEnd - overlapStart : ℤ) : ℚ) / (sampleRate : ℚ) }

/-- Go's `int(x)` conversion from `float64`: truncation toward zero,
which on a rational is T-division of numerator by denominator. -/
def intOfRat (q : ℚ) : ℤ :=
  Int.tdiv q.num (q.den : ℤ)

/-- `selectFinetuneSegment` from `internal/sync/fine_tuner.go`: reject
overlaps shorter than `minDuration`, take a centered window of
`targetDuration` when the overlap is at least that long, otherwise the
whole overlap. -/
def selectFinetuneSegment (overlap : OverlapRegion) (targetDuration minDuration : ℚ)
    (sampleRate : ℤ) : Except String (ℤ × ℤ) :=
  let targetSamples := intOfRat (targetDuration * (sampleRate : ℚ))
  let minSamples := intOfRat (minDuration * (sampleRate : ℚ))
  let overlapSamples := overlap.EndSample - overlap.StartSample
  if overlapSamples < minSamples then
    .error "overlap duration is less than minimum"
  else if overlapSamples ≥ targetSamples then
    let center := overlap.StartSample + overlapSamples / 2
    let halfTarget := targetSamples / 2
    .ok (center - halfTarget, center - halfTarget + targetSamples)
  else
    .ok (overlap.StartSample, overlap.EndSample)

/-- `recalculatePadding` from `internal/sync/fine_tuner.go`: same
computation as `CalculatePadding` but over the final offsets, updating the
existing `FileOffset` records in place. -/
def recalculatePadding (fileOffsets : List FileOffset) (sampleRate : ℤ) :
    Except String (List FileOffset) :=
  match fileOffsets with
  | [] => .error "no file offsets provided"
  | f0 :: _ =>
    let minOffset :=
      fileOffsets.foldl (fun m fo => min m fo.FinalOffsetSamples) f0.FinalOffsetSamples
    .ok (fileOffsets.map fun fo =>
      { fo with
        PaddingSamples := fo.FinalOffsetSamples - minOffset
        PaddingSeconds := ((fo.FinalOffsetSamples - minOffset : ℤ) : ℚ) / (sampleRate : ℚ)
        IsEarliest := fo.FinalOffsetSamples == minOffset })

/-- The per-track body of the fine-tuning loop in `FinetuneOffsets`
(`internal/sync/fine_tuner.go`, step 4): map the selected global segment
into the track's own coordinates, extract it, correlate against the mixed
segment with `downsampleFactor = 1`, and either record the sign-inverted
adjustment or a skip.  Skip constructions carry Go zero values in the
unnamed `FinetuneResult` fields. -/
def finetuneTrack (mixedSegment : List ℚ) (segStart segEnd sampleRate : ℤ)
    (localFile : WAVData) (fo : FileOffset) : FileOffset :=
  let localMono := ToMono localFile.Data localFile.Channels
  let localSegStart := segStart - fo.OffsetSamples
  let localSegEnd := segEnd - fo.OffsetSamples
  if localSegStart < 0 ∨ localSegEnd > (localMono.length : ℤ) then
    { fo with
      FinetuneResult := some
        { FineAdjustmentSamples := 0, FineAdjustmentSeconds := 0, Confidence := 0
          SegmentUsed := ⟨0, 0, 0⟩, Skipped := true
          SkipReason := "segment out of bounds" }
      FinalOffsetSamples := fo.OffsetSamples
      FinalOffsetSeconds := fo.OffsetSeconds }
  else
    match extractSegment localMono localSegStart localSegEnd with
    | .error e =>
      { fo with
        FinetuneResult := some
          { FineAdjustmentSamples := 0, FineAdjustmentSeconds := 0, Confidence := 0
            SegmentUsed := ⟨0, 0, 0⟩, Skipped := true
            SkipReason := "extraction failed: " ++ e }
        FinalOffsetSamples := fo.OffsetSamples
        FinalOffsetSeconds := fo.OffsetSeconds }
    | .ok localSegment =>
      match DetectOffset mixedSegment localSegment sampleRate 0 1 with
      | .error e =>
        { fo with
          FinetuneResult := some
            { FineAdjustmentSamples := 0, FineAdjustmentSeconds := 0, Confidence := 0
              SegmentUsed := ⟨0, 0, 0⟩, Skipped := true
              SkipReason := "correlation failed: " ++ e }
          FinalOffsetSamples := fo.OffsetSamples
          FinalOffsetSeconds := fo.OffsetSeconds }
      | .ok fineResult =>
        { fo with
          FinetuneResult := some
            { FineAdjustmentSamples := -fineResult.OffsetSamples
              FineAdjustmentSeconds := -fineResult.OffsetSeconds
              Confidence := fineResult.Confidence
              SegmentUsed :=
                { StartSample := segStart, EndSample := segEnd
                  DurationSec := ((segEnd - segStart : ℤ) : ℚ) / (sampleRate : ℚ) }
              Skipped := false, SkipReason := "" }
          FineAdjustmentSamples := -fineResult.OffsetSamples
          FineAdjustmentSeconds := -fineResult.OffsetSeconds
          FinalOffsetSamples := fo.OffsetSamples + -fineResult.OffsetSamples
          FinalOffsetSeconds := fo.OffsetSeconds + -fineResult.OffsetSeconds }

/-- `FinetuneOffsets` from `internal/sync/fine_tuner.go`: overlap
computation, segment selection (target 60 s, minimum 30 s), mixed-segment
extraction, per-track fine-tuning (`finetuneTrack`, again a `zipWith`
standing for the Go index loop under the equal-length hypothesis), and the
final padding recomputation.  When segment selection fails, every track is
marked skipped with the selection error as reason and keeps its coarse
offset as final. -/
def FinetuneOffsets (mixed : List ℚ) (localFiles : List WAVData)
    (fileOffsets : List FileOffset) (sampleRate : ℤ) :
    Except String (List FileOffset) :=
  match findOverlappingRegion localFiles fileOffsets sampleRate with
  | .error e => .error ("failed to find overlapping region: " ++ e)
  | .ok overlap =>
    match selectFinetuneSegment overlap 60 30 sampleRate with
    | .error e =>
      .ok (fileOffsets.map fun fo =>
        { fo with
          FinetuneResult := some
            { FineAdjustmentSamples := 0, FineAdjustmentSeconds := 0, Confidence := 0
              SegmentUsed := ⟨0, 0, 0⟩, Skipped := true, SkipReason := e }
          FinalOffsetSamples := fo.OffsetSamples
          FinalOffsetSeconds := fo.OffsetSeconds })
    | .ok (segStart, segEnd) =>
      match extractSegment mixed segStart segEnd with
      | .error e => .error ("failed to extract mixed segment: " ++ e)
      | .ok mixedSegment =>
        recalculatePadding
          (List.zipWith (finetuneTrack mixedSegment segStart segEnd sampleRate)
            localFiles fileOffsets)
          sampleRate

/-! ## Generic fold lemmas for the running minimum / maximum loops -/

/-- The running-minimum fold never exceeds its initial value. -/
lemma foldl_min_le_init {α : Type} (f : α → ℤ) :
    ∀ (l : List α) (a : ℤ), l.foldl (fun m y => min m (f y)) a ≤ a := by
  intro l
  induction l with
  | nil => intro a; simp
  | cons b t ih =>
    intro a
    calc (b :: t).foldl (fun m y => min m (f y)) a
        = t.foldl (fun m y => min m (f y)) (min a (f b)) := by simp
      _ ≤ min a (f b) := ih _
      _ ≤ a := min_le_left _ _

/-- The running-minimum fold is a lower bound for every listed value. -/
lemma foldl_min_le {α : Type} (f : α → ℤ) :
    ∀ (l : List α) (a : ℤ) (x : α), x ∈ l → l.foldl (fun m y => min m (f y)) a ≤ f x := by
  intro l
  induction l with
  | nil => intro a x hx; cases hx
  | cons b t ih =>
    intro a x hx
    rcases List.mem_cons.mp hx with h | h
    · subst h
      calc (x :: t).foldl (fun m y => min m (f y)) a
          = t.foldl (fun m y => min m (f y)) (min a (f x)) := by simp
        _ ≤ min a (f x) := foldl_min_le_init f t _
        _ ≤ f x := min_le_right _ _
    · simpa using ih (min a (f b)) x h

/-- The running-minimum fold returns its initial value or a listed value. -/
lemma foldl_min_attained {α : Type} (f : α → ℤ) :
    ∀ (l : List α) (a : ℤ),
      l.foldl (fun m y => min m (f y)) a = a ∨
      ∃ x ∈ l, l.foldl (fun m y => min m (f y)) a = f x := by
  intro l
  induction l with
  | nil => intro a; left; rfl
  | cons b t ih =>
    intro a
    have hstep : (b :: t).foldl (fun m y => min m (f y)) a
        = t.foldl (fun m y => min m (f y)) (min a (f b)) := by simp
    rcases ih (min a (f b)) with h | ⟨x, hx, h⟩
    · rcases min_cases a (f b) with ⟨hm, _⟩ | ⟨hm, _⟩
      · left; rw [hstep, h, hm]
      · right; exact ⟨b, List.mem_cons_self b t, by rw [hstep, h, hm]⟩
    · right; exact ⟨x, List.mem_cons_of_mem _ hx, by rw [hstep, h]⟩

/-- The running-maximum fold is at least its initial value. -/
lemma le_foldl_max_init {α : Type} (f : α → ℤ) :
    ∀ (l : List α) (a : ℤ), a ≤ l.foldl (fun m y => max m (f y)) a := by
  intro l
  induction l with
  | nil => intro a; simp
  | cons b t ih =>
    intro a
    calc a ≤ max a (f b) := le_max_left _ _
      _ ≤ t.foldl (fun m y => max m (f y)) (max a (f b)) := ih _
      _ = (b :: t).foldl (fun m y => max m (f y)) a := by simp

/-- The running-maximum fold is an upper bound for every listed value. -/
lemma le_foldl_max {α : Type} (f : α → ℤ) :
    ∀ (l : List α) (a : ℤ) (x : α), x ∈ l → f x ≤ l.foldl (fun m y => max m (f y)) a := by
  intro l
  induction l with
  | nil => intro a x hx; cases hx
  | cons b t ih =>
    intro a x hx
    rcases List.mem_cons.mp hx with h | h
    · subst h
      calc f x ≤ max a (f x) := le_max_right _ _
        _ ≤ t.foldl (fun m y => max m (f y)) (max a (f x)) := le_foldl_max_init f t _
        _ = (x :: t).foldl (fun m y => max m (f y)) a := by simp
    · simpa using ih (max a (f b)) x h

/-- The running-maximum fold returns its initial value or a listed value. -/
lemma foldl_max_attained {α : Type} (f : α → ℤ) :
    ∀ (l : List α) (a : ℤ),
      l.foldl (fun m y => max m (f y)) a = a ∨
      ∃ x ∈ l, l.foldl (fun m y => max m (f y)) a = f x := by
  intro l
  induction l with
  | nil => intro a; left; rfl
  | cons b t ih =>
    intro a
    have hstep : (b :: t).foldl (fun m y => max m (f y)) a
        = t.foldl (fun m y => max m (f y)) (max a (f b)) := by simp
    rcases ih (max a (f b)) with h | ⟨x, hx, h⟩
    · rcases max_cases a (f b) with ⟨hm, _⟩ | ⟨hm, _⟩
      · left; rw [hstep, h, hm]
      · right; exact ⟨b, List.mem_cons_self b t, by rw [hstep, h, hm]⟩
    · right; exact ⟨x, List.mem_cons_of_mem _ hx, by rw [hstep, h]⟩

/-! ## C9: downsample -/

/-- Index access law for the downsampling loop: for a stride of `f ≥ 1`,
position `i` of the output is position `i * f` of the input. -/
lemma downsampleGo_getElem? :
    ∀ (data : List ℚ) (f : ℕ), 1 ≤ f → ∀ i : ℕ, (downsampleGo data f)[i]? = data[i * f]? := by
  intro data f
  induction data, f using downsampleGo.induct with
  | case1 f => intro _ i; simp [downsampleGo]
  | case2 f x xs ih =>
    intro hf i
    rw [downsampleGo]
    match i with
    | 0 => simp
    | i + 1 =>
      rw [List.getElem?_cons_succ, ih hf i, List.getElem?_drop]
      have hsm : (i + 1) * f = i * f + f := Nat.succ_mul i f
      have h : (i + 1) * f = (f - 1 + i * f) + 1 := by omega
      rw [h, List.getElem?_cons_succ]

/-- C9: `downsample(signal, factor)` is the identity for `factor ≤ 1`
(in particular for `factor = 1`), and for `factor > 1` it keeps exactly
the input samples at indices `0, factor, 2*factor, …`, in order: position
`i` of the result is position `i * factor` of the input. -/
theorem downsample_spec (signal : List ℚ) (factor : ℤ) :
    (factor ≤ 1 → downsample signal factor = signal) ∧
    (1 < factor → ∀ i : ℕ, (downsample signal factor)[i]? = signal[i * factor.toNat]?) := by
  constructor
  · intro h; simp [downsample, h]
  · intro h i
    have hnot : ¬ factor ≤ 1 := not_le.mpr h
    have hf : 1 ≤ factor.toNat := by omega
    simp only [downsample, if_neg hnot]
    exact downsampleGo_getElem? signal _ hf i

/-- Witness for C9 at `signal = [1,2,3,4,5,6,7]`: `factor = 1` is the
identity and `factor = 3` reads every third sample. -/
theorem downsample_spec_witness :
    ((1 : ℤ) ≤ 1 ∧ downsample [1, 2, 3, 4, 5, 6, 7] 1 = [1, 2, 3, 4, 5, 6, 7]) ∧
    ((1 : ℤ) < 3 ∧ (downsample [1, 2, 3, 4, 5, 6, 7] 3)[2]? =
      ([1, 2, 3, 4, 5, 6, 7] : List ℚ)[2 * (3 : ℤ).toNat]?) :=
  ⟨⟨le_refl 1, (downsample_spec [1, 2, 3, 4, 5, 6, 7] 1).1 (le_refl 1)⟩,
   ⟨by norm_num, (downsample_spec [1, 2, 3, 4, 5, 6, 7] 3).2 (by norm_num) 2⟩⟩

/-! ## C10: PrependSilence -/

/-- C10: prepending zero silence samples is the identity, and prepending
`k > 0` silence samples concatenates `k` zeros in front of the unchanged
signal. -/
theorem prependSilence_spec (signal : List ℚ) (k : ℤ) :
    PrependSilence signal 0 = signal ∧
    (0 < k → PrependSilence signal k = List.replicate k.toNat 0 ++ signal) := by
  constructor
  · simp [PrependSilence]
  · intro hk
    simp [PrependSilence, GenerateSilence, not_le.mpr hk]

/-- Witness for C10 at `signal = [5, 7]`, `k = 2`. -/
theorem prependSilence_spec_witness :
    PrependSilence [5, 7] 0 = [5, 7] ∧
    ((0 : ℤ) < 2 ∧ PrependSilence [5, 7] 2 = List.replicate (2 : ℤ).toNat 0 ++ [5, 7]) :=
  ⟨(prependSilence_spec [5, 7] 0).1,
   ⟨by norm_num, (prependSilence_spec [5, 7] 2).2 (by norm_num)⟩⟩

/-! ## C6: CalculatePadding functional specification -/

/-- `CalculatePadding` errs exactly on an empty offset list or a length
mismatch with the file paths. -/
lemma calculatePadding_error_iff (results : List OffsetResult) (paths : List String) (rate : ℤ) :
    (∃ e, CalculatePadding results paths rate = .error e) ↔
      results = [] ∨ results.length ≠ paths.length := by
  by_cases hlen : results.length ≠ paths.length
  · exact ⟨fun _ => Or.inr hlen,
      fun _ => ⟨"mismatch between results and file paths", by simp [CalculatePadding, hlen]⟩⟩
  · push_neg at hlen
    match results with
    | [] =>
      exact ⟨fun _ => Or.inl rfl,
        fun _ => ⟨"no offset results provided", by simp [CalculatePadding, ← hlen]⟩⟩
    | r0 :: rest =>
      constructor
      · rintro ⟨e, he⟩
        simp [CalculatePadding, hlen] at he
      · rintro (h | h)
        · cases h
        · exact absurd hlen h

/-- Characterisation of a successful `CalculatePadding` run: the fold is
the attained minimum `m`, and entry `i` copies `results[i]`'s offset data
with `padding = offset - m` and `isEarliest ↔ offset = m`. -/
lemma calculatePadding_ok_char (results : List OffsetResult) (paths : List String) (rate : ℤ)
    (out : List FileOffset) (hout : CalculatePadding results paths rate = .ok out) :
    ∃ m, (∃ r ∈ results, r.OffsetSamples = m) ∧ (∀ r ∈ results, m ≤ r.OffsetSamples) ∧
      out.length = results.length ∧
      ∀ (i : ℕ) (hi : i < out.length) (hri : i < results.length),
        out[i].OffsetSamples = results[i].OffsetSamples ∧
        out[i].PaddingSamples = results[i].OffsetSamples - m ∧
        (out[i].IsEarliest = true ↔ results[i].OffsetSamples = m) := by
  by_cases hlen : results.length ≠ paths.length
  · simp [CalculatePadding, hlen] at hout
  · push_neg at hlen
    match results with
    | [] =>
      simp [CalculatePadding, ← hlen] at hout
    | r0 :: rest =>
      have hok : CalculatePadding (r0 :: rest) paths rate =
          .ok (List.zipWith
            (fun r path => show FileOffset from
              { Path := path
                OffsetSamples := r.OffsetSamples
                OffsetSeconds := r.OffsetSeconds
                FineAdjustmentSamples := 0
                FineAdjustmentSeconds := 0
                FinalOffsetSamples := 0
                FinalOffsetSeconds := 0
                PaddingSamples := r.OffsetSamples -
                  ((r0 :: rest).foldl (fun m r => min m r.OffsetSamples) r0.OffsetSamples)
                PaddingSeconds := ((r.OffsetSamples -
                  ((r0 :: rest).foldl (fun m r => min m r.OffsetSamples) r0.OffsetSamples) : ℤ) : ℚ)
                  / (rate : ℚ)
                Confidence := r.Confidence
                IsEarliest := r.OffsetSamples ==
                  ((r0 :: rest).foldl (fun m r => min m r.OffsetSamples) r0.OffsetSamples)
                FinetuneResult := none })
            (r0 :: rest) paths) := by
        simp [CalculatePadding, hlen]
      rw [hok] at hout
      injection hout with hout
      subst hout
      refine ⟨(r0 :: rest).foldl (fun m r => min m r.OffsetSamples) r0.OffsetSamples,
        ?_, ?_, ?_, ?_⟩
      · rcases foldl_min_attained (fun r : OffsetResult => r.OffsetSamples) (r0 :: rest)
          r0.OffsetSamples with h | ⟨x, hx, h⟩
        · exact ⟨r0, List.mem_cons_self r0 rest, h.symm⟩
        · exact ⟨x, hx, h.symm⟩
      · intro r hr
        exact foldl_min_le (fun r : OffsetResult => r.OffsetSamples) (r0 :: rest) _ r hr
      · simp [← hlen]
      · intro i hi hri
        rw [List.getElem_zipWith]
        exact ⟨rfl, rfl, by simp [beq_iff_eq]⟩

/-- C6: `CalculatePadding` errs exactly on an empty offset list or a
length mismatch with the file paths; otherwise, with `m` the minimum of
all offsets, every entry has `padding = offset - m` (hence `≥ 0`) and
`isEarliest` iff its offset is `m`. -/
theorem calculatePadding_spec (results : List OffsetResult) (paths : List String) (rate : ℤ) :
    ((∃ e, CalculatePadding results paths rate = .error e) ↔
      results = [] ∨ results.length ≠ paths.length) ∧
    (∀ out, CalculatePadding results paths rate = .ok out →
      ∃ m, (∃ r ∈ results, r.OffsetSamples = m) ∧ (∀ r ∈ results, m ≤ r.OffsetSamples) ∧
        out.length = results.length ∧
        ∀ (i : ℕ) (hi : i < out.length) (hri : i < results.length),
          out[i].PaddingSamples = results[i].OffsetSamples - m ∧
          0 ≤ out[i].PaddingSamples ∧
          (out[i].IsEarliest = true ↔ results[i].OffsetSamples = m)) := by
  refine ⟨calculatePadding_error_iff results paths rate, ?_⟩
  intro out hout
  obtain ⟨m, hmem, hle, hlen, hidx⟩ := calculatePadding_ok_char results paths rate out hout
  refine ⟨m, hmem, hle, hlen, ?_⟩
  intro i hi hri
  obtain ⟨-, hpad, hearl⟩ := hidx i hi hri
  refine ⟨hpad, ?_, hearl⟩
  rw [hpad]
  simpa only [Int.sub_nonneg] using hle _ (List.getElem_mem hri)

/-- Witness for C6: a mismatched call errs, and a two-track call computes
paddings `2` and `0` from offsets `5` and `3`. -/
theorem calculatePadding_spec_witness :
    (∃ e, CalculatePadding [⟨5, 5, 1⟩] [] 1 = .error e) ∧
    (∃ m, (∃ r ∈ [(⟨5, 5, 1⟩ : OffsetResult), ⟨3, 3, 1⟩], r.OffsetSamples = m) ∧
      (∀ r ∈ [(⟨5, 5, 1⟩ : OffsetResult), ⟨3, 3, 1⟩], m ≤ r.OffsetSamples) ∧
      ([⟨"a", 5, 5, 0, 0, 0, 0, 2, 2, 1, false, none⟩,
        ⟨"b", 3, 3, 0, 0, 0, 0, 0, 0, 1, true, none⟩] : List FileOffset).length =
        [(⟨5, 5, 1⟩ : OffsetResult), ⟨3, 3, 1⟩].length ∧
      ∀ (i : ℕ)
        (hi : i < ([⟨"a", 5, 5, 0, 0, 0, 0, 2, 2, 1, false, none⟩,
          ⟨"b", 3, 3, 0, 0, 0, 0, 0, 0, 1, true, none⟩] : List FileOffset).length)
        (hri : i < [(⟨5, 5, 1⟩ : OffsetResult), ⟨3, 3, 1⟩].length),
        ([⟨"a", 5, 5, 0, 0, 0, 0, 2, 2, 1, false, none⟩,
          ⟨"b", 3, 3, 0, 0, 0, 0, 0, 0, 1, true, none⟩] : List FileOffset)[i].PaddingSamples =
          [(⟨5, 5, 1⟩ : OffsetResult), ⟨3, 3, 1⟩][i].OffsetSamples - m ∧
        0 ≤ ([⟨"a", 5, 5, 0, 0, 0, 0, 2, 2, 1, false, none⟩,
          ⟨"b", 3, 3, 0, 0, 0, 0, 0, 0, 1, true, none⟩] : List FileOffset)[i].PaddingSamples ∧
        (([⟨"a", 5, 5, 0, 0, 0, 0, 2, 2, 1, false, none⟩,
          ⟨"b", 3, 3, 0, 0, 0, 0, 0, 0, 1, true, none⟩] :
            List FileOffset)[i].IsEarliest = true ↔
          [(⟨5, 5, 1⟩ : OffsetResult), ⟨3, 3, 1⟩][i].OffsetSamples = m)) :=
  ⟨(calculatePadding_spec [⟨5, 5, 1⟩] [] 1).1.mpr (Or.inr (by simp)),
   (calculatePadding_spec [⟨5, 5, 1⟩, ⟨3, 3, 1⟩] ["a", "b"] 1).2
     [⟨"a", 5, 5, 0, 0, 0, 0, 2, 2, 1, false, none⟩,
      ⟨"b", 3, 3, 0, 0, 0, 0, 0, 0, 1, true, none⟩]
     (by norm_num [CalculatePadding, min_def])⟩

/-! ## C1: earliest-track / zero-padding invariant -/

/-- Characterisation of a successful `recalculatePadding` run: with `m`
the attained minimum of the final offsets, entry `i` is `fileOffsets[i]`
with only the padding fields and the earliest flag rewritten. -/
lemma recalculatePadding_ok_char (fos : List FileOffset) (rate : ℤ) (out : List FileOffset)
    (hout : recalculatePadding fos rate = .ok out) :
    ∃ m, (∃ fo ∈ fos, fo.FinalOffsetSamples = m) ∧ (∀ fo ∈ fos, m ≤ fo.FinalOffsetSamples) ∧
      out.length = fos.length ∧
      ∀ (i : ℕ) (hi : i < out.length) (hj : i < fos.length),
        out[i] = { fos[i] with
          PaddingSamples := fos[i].FinalOffsetSamples - m
          PaddingSeconds := ((fos[i].FinalOffsetSamples - m : ℤ) : ℚ) / (rate : ℚ)
          IsEarliest := fos[i].FinalOffsetSamples == m } := by
  match fos with
  | [] => simp [recalculatePadding] at hout
  | f0 :: rest =>
    have hok : recalculatePadding (f0 :: rest) rate =
        .ok ((f0 :: rest).map fun fo =>
          { fo with
            PaddingSamples := fo.FinalOffsetSamples -
              ((f0 :: rest).foldl (fun m fo => min m fo.FinalOffsetSamples) f0.FinalOffsetSamples)
            PaddingSeconds := ((fo.FinalOffsetSamples -
              ((f0 :: rest).foldl (fun m fo => min m fo.FinalOffsetSamples)
                f0.FinalOffsetSamples) : ℤ) : ℚ) / (rate : ℚ)
            IsEarliest := fo.FinalOffsetSamples ==
              ((f0 :: rest).foldl (fun m fo => min m fo.FinalOffsetSamples)
                f0.FinalOffsetSamples) }) := rfl
    rw [hok] at hout
    injection hout with hout
    subst hout
    refine ⟨(f0 :: rest).foldl (fun m fo => min m fo.FinalOffsetSamples) f0.FinalOffsetSamples,
      ?_, ?_, by simp, ?_⟩
    · rcases foldl_min_attained (fun fo : FileOffset => fo.FinalOffsetSamples) (f0 :: rest)
        f0.FinalOffsetSamples with h | ⟨x, hx, h⟩
      · exact ⟨f0, List.mem_cons_self f0 rest, h.symm⟩
      · exact ⟨x, hx, h.symm⟩
    · intro fo hfo
      exact foldl_min_le (fun fo : FileOffset => fo.FinalOffsetSamples) (f0 :: rest) _ fo hfo
    · intro i hi hj
      simp only [List.getElem_map]

/-- The consequences of `padding = offset - min` and
`isEarliest ↔ offset = min` that C1 asserts, for any offset notion:
every minimum-attaining entry has zero padding and the earliest flag;
all entries do when the offsets are all equal; and when they are not,
some entry has non-zero padding and a cleared earliest flag. -/
lemma earliest_bullets (out : List FileOffset) (off : FileOffset → ℤ) (m : ℤ)
    (hmem : ∃ fo ∈ out, off fo = m)
    (hle : ∀ fo ∈ out, m ≤ off fo)
    (hchar : ∀ fo ∈ out, fo.PaddingSamples = off fo - m ∧ (fo.IsEarliest = true ↔ off fo = m)) :
    (∀ fo ∈ out, off fo = m → fo.PaddingSamples = 0 ∧ fo.IsEarliest = true) ∧
    ((∀ fo1 ∈ out, ∀ fo2 ∈ out, off fo1 = off fo2) →
      ∀ fo ∈ out, fo.PaddingSamples = 0 ∧ fo.IsEarliest = true) ∧
    (¬ (∀ fo1 ∈ out, ∀ fo2 ∈ out, off fo1 = off fo2) →
      ∃ fo ∈ out, fo.PaddingSamples ≠ 0 ∧ fo.IsEarliest = false) := by
  obtain ⟨fo0, hfo0, hoff0⟩ := hmem
  have hnotmin : ∀ fo ∈ out, off fo ≠ m →
      fo.PaddingSamples ≠ 0 ∧ fo.IsEarliest = false := by
    intro fo hfo hne
    constructor
    · rw [(hchar fo hfo).1]
      exact sub_ne_zero.mpr hne
    · cases hb : fo.IsEarliest
      · rfl
      · exact absurd ((hchar fo hfo).2.mp hb) hne
  refine ⟨?_, ?_, ?_⟩
  · intro fo hfo hm
    exact ⟨by rw [(hchar fo hfo).1, hm, sub_self], (hchar fo hfo).2.mpr hm⟩
  · intro hall fo hfo
    have hm : off fo = m := by rw [hall fo hfo fo0 hfo0, hoff0]
    exact ⟨by rw [(hchar fo hfo).1, hm, sub_self], (hchar fo hfo).2.mpr hm⟩
  · intro hnall
    push_neg at hnall
    obtain ⟨a, ha, b, hb, hab⟩ := hnall
    by_cases haM : off a = m
    · have hbm : off b ≠ m := fun h => hab (by rw [haM, h])
      exact ⟨b, hb, hnotmin b hb hbm⟩
    · exact ⟨a, ha, hnotmin a ha haM⟩

/-- C1 (amended): in every FileOffset set computed by `CalculatePadding`
(from coarse offsets) or by the refiner's `recalculatePadding` (from
final offsets), with `m` the (attained) minimal offset, every entry
attaining `m` — at least one, but possibly several, since several tracks
can share the minimum — has `padding = 0` and `isEarliest = true`; when
the offsets are not all equal some entry has `padding ≠ 0` and
`isEarliest = false`; when all offsets are equal, every entry has
`padding = 0` and `isEarliest = true`. -/
theorem padding_earliest_invariant :
    (∀ (results : List OffsetResult) (paths : List String) (rate : ℤ)
      (out : List FileOffset), CalculatePadding results paths rate = .ok out →
        ∃ m, (∃ fo ∈ out, fo.OffsetSamples = m) ∧ (∀ fo ∈ out, m ≤ fo.OffsetSamples) ∧
        (∀ fo ∈ out, fo.OffsetSamples = m →
          fo.PaddingSamples = 0 ∧ fo.IsEarliest = true) ∧
        ((∀ fo1 ∈ out, ∀ fo2 ∈ out, fo1.OffsetSamples = fo2.OffsetSamples) →
          ∀ fo ∈ out, fo.PaddingSamples = 0 ∧ fo.IsEarliest = true) ∧
        (¬ (∀ fo1 ∈ out, ∀ fo2 ∈ out, fo1.OffsetSamples = fo2.OffsetSamples) →
          ∃ fo ∈ out, fo.PaddingSamples ≠ 0 ∧ fo.IsEarliest = false)) ∧
    (∀ (fos : List FileOffset) (rate : ℤ) (out : List FileOffset),
      recalculatePadding fos rate = .ok out →
        ∃ m, (∃ fo ∈ out, fo.FinalOffsetSamples = m) ∧
        (∀ fo ∈ out, m ≤ fo.FinalOffsetSamples) ∧
        (∀ fo ∈ out, fo.FinalOffsetSamples = m →
          fo.PaddingSamples = 0 ∧ fo.IsEarliest = true) ∧
        ((∀ fo1 ∈ out, ∀ fo2 ∈ out, fo1.FinalOffsetSamples = fo2.FinalOffsetSamples) →
          ∀ fo ∈ out, fo.PaddingSamples = 0 ∧ fo.IsEarliest = true) ∧
        (¬ (∀ fo1 ∈ out, ∀ fo2 ∈ out, fo1.FinalOffsetSamples = fo2.FinalOffsetSamples) →
          ∃ fo ∈ out, fo.PaddingSamples ≠ 0 ∧ fo.IsEarliest = false)) := by
  constructor
  · intro results paths rate out hok
    obtain ⟨m, hmem, hle, hlen, hidx⟩ := calculatePadding_ok_char results paths rate out hok
    have hmemO : ∃ fo ∈ out, fo.OffsetSamples = m := by
      obtain ⟨r, hr, hrm⟩ := hmem
      obtain ⟨j, hj, hjr⟩ := List.mem_iff_getElem.mp hr
      have hj2 : j < out.length := by omega
      refine ⟨out[j], List.getElem_mem hj2, ?_⟩
      rw [(hidx j hj2 hj).1, hjr, hrm]
    have hleO : ∀ fo ∈ out, m ≤ fo.OffsetSamples := by
      intro fo hfo
      obtain ⟨i, hi, hio⟩ := List.mem_iff_getElem.mp hfo
      have hri : i < results.length := by omega
      rw [← hio, (hidx i hi hri).1]
      exact hle _ (List.getElem_mem hri)
    have hcharO : ∀ fo ∈ out, fo.PaddingSamples = fo.OffsetSamples - m ∧
        (fo.IsEarliest = true ↔ fo.OffsetSamples = m) := by
      intro fo hfo
      obtain ⟨i, hi, hio⟩ := List.mem_iff_getElem.mp hfo
      have hri : i < results.length := by omega
      obtain ⟨hoff, hpad, hearl⟩ := hidx i hi hri
      rw [← hio]
      exact ⟨by rw [hpad, hoff], by rw [hearl, hoff]⟩
    exact ⟨m, hmemO, hleO,
      earliest_bullets out (fun fo => fo.OffsetSamples) m hmemO hleO hcharO⟩
  · intro fos rate out hok
    obtain ⟨m, hmem, hle, hlen, hidx⟩ := recalculatePadding_ok_char fos rate out hok
    have hfield : ∀ (i : ℕ) (hi : i < out.length) (hj : i < fos.length),
        out[i].FinalOffsetSamples = fos[i].FinalOffsetSamples ∧
        out[i].PaddingSamples = fos[i].FinalOffsetSamples - m ∧
        (out[i].IsEarliest = true ↔ fos[i].FinalOffsetSamples = m) := by
      intro i hi hj
      rw [hidx i hi hj]
      exact ⟨rfl, rfl, by simp [beq_iff_eq]⟩
    have hmemO : ∃ fo ∈ out, fo.FinalOffsetSamples = m := by
      obtain ⟨fo, hfo, hfom⟩ := hmem
      obtain ⟨j, hj, hjf⟩ := List.mem_iff_getElem.mp hfo
      have hj2 : j < out.length := by omega
      refine ⟨out[j], List.getElem_mem hj2, ?_⟩
      rw [(hfield j hj2 hj).1, hjf, hfom]
    have hleO : ∀ fo ∈ out, m ≤ fo.FinalOffsetSamples := by
      intro fo hfo
      obtain ⟨i, hi, hio⟩ := List.mem_iff_getElem.mp hfo
      have hj : i < fos.length := by omega
      rw [← hio, (hfield i hi hj).1]
      exact hle _ (List.getElem_mem hj)
    have hcharO : ∀ fo ∈ out, fo.PaddingSamples = fo.FinalOffsetSamples - m ∧
        (fo.IsEarliest = true ↔ fo.FinalOffsetSamples = m) := by
      intro fo hfo
      obtain ⟨i, hi, hio⟩ := List.mem_iff_getElem.mp hfo
      have hj : i < fos.length := by omega
      obtain ⟨hoff, hpad, hearl⟩ := hfield i hi hj
      rw [← hio]
      exact ⟨by rw [hpad, hoff], by rw [hearl, hoff]⟩
    exact ⟨m, hmemO, hleO,
      earliest_bullets out (fun fo => fo.FinalOffsetSamples) m hmemO hleO hcharO⟩

/-- The output of `CalculatePadding` on coarse offsets `[0, 0, 5]` (rate
1): the minimum `0` is attained twice, so two entries are earliest with
zero padding. -/
def cexPaddingOut : List FileOffset :=
  [⟨"a", 0, 0, 0, 0, 0, 0, 0, 0, 1, true, none⟩,
   ⟨"b", 0, 0, 0, 0, 0, 0, 0, 0, 1, true, none⟩,
   ⟨"c", 5, 5, 0, 0, 0, 0, 5, 5, 1, false, none⟩]

/-- C1 counterexample: on coarse offsets `[0, 0, 5]` the offsets are not
all equal, yet two entries (not exactly one) have `padding = 0` and
`isEarliest = true`, because two tracks share the minimal offset. -/
theorem padding_unique_earliest_cex :
    CalculatePadding [⟨0, 0, 1⟩, ⟨0, 0, 1⟩, ⟨5, 5, 1⟩] ["a", "b", "c"] 1 = .ok cexPaddingOut ∧
    cexPaddingOut.map FileOffset.OffsetSamples = [0, 0, 5] ∧
    ¬ ([0, 0, 5] : List ℤ).Pairwise (fun a b => a = b) ∧
    (cexPaddingOut.filter fun fo => fo.PaddingSamples == 0 && fo.IsEarliest).length = 2 := by
  refine ⟨?_, rfl, by decide, rfl⟩
  norm_num [CalculatePadding, cexPaddingOut, min_def]

/-- Witness for C1 at concrete inputs: coarse offsets `[3, 7]` through
`CalculatePadding` and a single final offset `[4]` through
`recalculatePadding`. -/
theorem padding_earliest_invariant_witness :
    (CalculatePadding [⟨3, 3, 1⟩, ⟨7, 7, 1⟩] ["a", "b"] 1 =
      .ok [⟨"a", 3, 3, 0, 0, 0, 0, 0, 0, 1, true, none⟩,
           ⟨"b", 7, 7, 0, 0, 0, 0, 4, 4, 1, false, none⟩] ∧
      (∃ m, (∃ fo ∈ [(⟨"a", 3, 3, 0, 0, 0, 0, 0, 0, 1, true, none⟩ : FileOffset),
                ⟨"b", 7, 7, 0, 0, 0, 0, 4, 4, 1, false, none⟩], fo.OffsetSamples = m) ∧
        (∀ fo ∈ [(⟨"a", 3, 3, 0, 0, 0, 0, 0, 0, 1, true, none⟩ : FileOffset),
            ⟨"b", 7, 7, 0, 0, 0, 0, 4, 4, 1, false, none⟩], m ≤ fo.OffsetSamples) ∧
        (∀ fo ∈ [(⟨"a", 3, 3, 0, 0, 0, 0, 0, 0, 1, true, none⟩ : FileOffset),
            ⟨"b", 7, 7, 0, 0, 0, 0, 4, 4, 1, false, none⟩], fo.OffsetSamples = m →
          fo.PaddingSamples = 0 ∧ fo.IsEarliest = true) ∧
        ((∀ fo1 ∈ [(⟨"a", 3, 3, 0, 0, 0, 0, 0, 0, 1, true, none⟩ : FileOffset),
            ⟨"b", 7, 7, 0, 0, 0, 0, 4, 4, 1, false, none⟩],
          ∀ fo2 ∈ [(⟨"a", 3, 3, 0, 0, 0, 0, 0, 0, 1, true, none⟩ : FileOffset),
            ⟨"b", 7, 7, 0, 0, 0, 0, 4, 4, 1, false, none⟩],
            fo1.OffsetSamples = fo2.OffsetSamples) →
          ∀ fo ∈ [(⟨"a", 3, 3, 0, 0, 0, 0, 0, 0, 1, true, none⟩ : FileOffset),
            ⟨"b", 7, 7, 0, 0, 0, 0, 4, 4, 1, false, none⟩],
            fo.PaddingSamples = 0 ∧ fo.IsEarliest = true) ∧
        (¬ (∀ fo1 ∈ [(⟨"a", 3, 3, 0, 0, 0, 0, 0, 0, 1, true, none⟩ : FileOffset),
            ⟨"b", 7, 7, 0, 0, 0, 0, 4, 4, 1, false, none⟩],
          ∀ fo2 ∈ [(⟨"a", 3, 3, 0, 0, 0, 0, 0, 0, 1, true, none⟩ : FileOffset),
            ⟨"b", 7, 7, 0, 0, 0, 0, 4, 4, 1, false, none⟩],
            fo1.OffsetSamples = fo2.OffsetSamples) →
          ∃ fo ∈ [(⟨"a", 3, 3, 0, 0, 0, 0, 0, 0, 1, true, none⟩ : FileOffset),
            ⟨"b", 7, 7, 0, 0, 0, 0, 4, 4, 1, false, none⟩],
            fo.PaddingSamples ≠ 0 ∧ fo.IsEarliest = false))) ∧
    (recalculatePadding [⟨"a", 0, 0, 0, 0, 4, 4, 9, 9, 1, false, none⟩] 1 =
      .ok [⟨"a", 0, 0, 0, 0, 4, 4, 0, 0, 1, true, none⟩] ∧
      (∃ m, (∃ fo ∈ [(⟨"a", 0, 0, 0, 0, 4, 4, 0, 0, 1, true, none⟩ : FileOffset)],
          fo.FinalOffsetSamples = m) ∧
        (∀ fo ∈ [(⟨"a", 0, 0, 0, 0, 4, 4, 0, 0, 1, true, none⟩ : FileOffset)],
          m ≤ fo.FinalOffsetSamples) ∧
        (∀ fo ∈ [(⟨"a", 0, 0, 0, 0, 4, 4, 0, 0, 1, true, none⟩ : FileOffset)],
          fo.FinalOffsetSamples = m → fo.PaddingSamples = 0 ∧ fo.IsEarliest = true) ∧
        ((∀ fo1 ∈ [(⟨"a", 0, 0, 0, 0, 4, 4, 0, 0, 1, true, none⟩ : FileOffset)],
          ∀ fo2 ∈ [(⟨"a", 0, 0, 0, 0, 4, 4, 0, 0, 1, true, none⟩ : FileOffset)],
            fo1.FinalOffsetSamples = fo2.FinalOffsetSamples) →
          ∀ fo ∈ [(⟨"a", 0, 0, 0, 0, 4, 4, 0, 0, 1, true, none⟩ : FileOffset)],
            fo.PaddingSamples = 0 ∧ fo.IsEarliest = true) ∧
        (¬ (∀ fo1 ∈ [(⟨"a", 0, 0, 0, 0, 4, 4, 0, 0, 1, true, none⟩ : FileOffset)],
          ∀ fo2 ∈ [(⟨"a", 0, 0, 0, 0, 4, 4, 0, 0, 1, true, none⟩ : FileOffset)],
            fo1.FinalOffsetSamples = fo2.FinalOffsetSamples) →
          ∃ fo ∈ [(⟨"a", 0, 0, 0, 0, 4, 4, 0, 0, 1, true, none⟩ : FileOffset)],
            fo.PaddingSamples ≠ 0 ∧ fo.IsEarliest = false))) := by
  have h1 : CalculatePadding [⟨3, 3, 1⟩, ⟨7, 7, 1⟩] ["a", "b"] 1 =
      .ok [⟨"a", 3, 3, 0, 0, 0, 0, 0, 0, 1, true, none⟩,
           ⟨"b", 7, 7, 0, 0, 0, 0, 4, 4, 1, false, none⟩] := by
    norm_num [CalculatePadding, min_def]
  have h2 : recalculatePadding [⟨"a", 0, 0, 0, 0, 4, 4, 9, 9, 1, false, none⟩] 1 =
      .ok [⟨"a", 0, 0, 0, 0, 4, 4, 0, 0, 1, true, none⟩] := by
    norm_num [recalculatePadding, min_def]
  exact ⟨⟨h1, padding_earliest_invariant.1 _ _ _ _ h1⟩,
    h2, padding_earliest_invariant.2 _ _ _ h2⟩

/-! ## C4: overlap region -/

/-- C4: for a non-empty track list (with matching offset list), the
overlap region is the intersection of the per-track intervals: its start
`s` is the maximum of all interval starts, its end `e` the minimum of all
interval ends, and `findOverlappingRegion` errs exactly when `e ≤ s`. -/
theorem findOverlappingRegion_spec (files : List WAVData) (fos : List FileOffset) (rate : ℤ)
    (hne : files ≠ []) (hlen : files.length = fos.length) :
    ∃ s e : ℤ,
      (s ∈ (List.zipWith trackInterval files fos).map Prod.fst ∧
        ∀ a ∈ (List.zipWith trackInterval files fos).map Prod.fst, a ≤ s) ∧
      (e ∈ (List.zipWith trackInterval files fos).map Prod.snd ∧
        ∀ b ∈ (List.zipWith trackInterval files fos).map Prod.snd, e ≤ b) ∧
      (e ≤ s → findOverlappingRegion files fos rate =
        .error "no overlapping region found after coarse alignment") ∧
      (s < e → findOverlappingRegion files fos rate =
        .ok ⟨s, e, ((e - s : ℤ) : ℚ) / (rate : ℚ)⟩) := by
  match files, fos with
  | [], _ => exact absurd rfl hne
  | w0 :: ws, [] => simp at hlen
  | w0 :: ws, fo0 :: fs =>
    refine ⟨(List.zipWith trackInterval ws fs).foldl (fun a p => max a p.1)
        (trackInterval w0 fo0).1,
      (List.zipWith trackInterval ws fs).foldl (fun a p => min a p.2)
        (trackInterval w0 fo0).2, ⟨?_, ?_⟩, ⟨?_, ?_⟩, ?_, ?_⟩
    · rcases foldl_max_attained Prod.fst (List.zipWith trackInterval ws fs)
        (trackInterval w0 fo0).1 with h | ⟨x, hx, h⟩
      · rw [h]
        exact List.mem_map_of_mem Prod.fst (List.mem_cons_self _ _)
      · rw [h]
        exact List.mem_map_of_mem Prod.fst (List.mem_cons_of_mem _ hx)
    · intro a ha
      rcases List.mem_map.mp ha with ⟨p, hp, hpa⟩
      rcases List.mem_cons.mp hp with h | h
      · rw [← hpa, h]
        exact le_foldl_max_init Prod.fst _ _
      · rw [← hpa]
        exact le_foldl_max Prod.fst _ _ p h
    · rcases foldl_min_attained Prod.snd (List.zipWith trackInterval ws fs)
        (trackInterval w0 fo0).2 with h | ⟨x, hx, h⟩
      · rw [h]
        exact List.mem_map_of_mem Prod.snd (List.mem_cons_self _ _)
      · rw [h]
        exact List.mem_map_of_mem Prod.snd (List.mem_cons_of_mem _ hx)
    · intro b hb
      rcases List.mem_map.mp hb with ⟨p, hp, hpb⟩
      rcases List.mem_cons.mp hp with h | h
      · rw [← hpb, h]
        exact foldl_min_le_init Prod.snd _ _
      · rw [← hpb]
        exact foldl_min_le Prod.snd _ _ p h
    · intro hle
      simp only [findOverlappingRegion, List.length_cons, List.zipWith_cons_cons]
      rw [if_neg (by omega)]
      rw [if_pos hle]
    · intro hlt
      simp only [findOverlappingRegion, List.length_cons, List.zipWith_cons_cons]
      rw [if_neg (by omega)]
      rw [if_neg (not_le.mpr hlt)]

set_option maxRecDepth 16000 in
/-- Witness for C4, the spec's concrete instance: coarse-aligned
intervals `[0, 1000)`, `[100, 1100)`, `[50, 900)` intersect in exactly
`[100, 900)`. -/
theorem findOverlappingRegion_spec_witness :
    ([(⟨"a", 1, 1, 16, List.replicate 1000 0⟩ : WAVData),
      ⟨"b", 1, 1, 16, List.replicate 1000 0⟩,
      ⟨"c", 1, 1, 16, List.replicate 850 0⟩] ≠ []) ∧
    (∃ s e : ℤ,
      (s ∈ (List.zipWith trackInterval
          [⟨"a", 1, 1, 16, List.replicate 1000 0⟩, ⟨"b", 1, 1, 16, List.replicate 1000 0⟩,
           ⟨"c", 1, 1, 16, List.replicate 850 0⟩]
          [⟨"a", 0, 0, 0, 0, 0, 0, 0, 0, 1, false, none⟩,
           ⟨"b", 100, 100, 0, 0, 0, 0, 0, 0, 1, false, none⟩,
           ⟨"c", 50, 50, 0, 0, 0, 0, 0, 0, 1, false, none⟩]).map Prod.fst ∧
        ∀ a ∈ (List.zipWith trackInterval
          [⟨"a", 1, 1, 16, List.replicate 1000 0⟩, ⟨"b", 1, 1, 16, List.replicate 1000 0⟩,
           ⟨"c", 1, 1, 16, List.replicate 850 0⟩]
          [⟨"a", 0, 0, 0, 0, 0, 0, 0, 0, 1, false, none⟩,
           ⟨"b", 100, 100, 0, 0, 0, 0, 0, 0, 1, false, none⟩,
           ⟨"c", 50, 50, 0, 0, 0, 0, 0, 0, 1, false, none⟩]).map Prod.fst, a ≤ s) ∧
      (e ∈ (List.zipWith trackInterval
          [⟨"a", 1, 1, 16, List.replicate 1000 0⟩, ⟨"b", 1, 1, 16, List.replicate 1000 0⟩,
           ⟨"c", 1, 1, 16, List.replicate 850 0⟩]
          [⟨"a", 0, 0, 0, 0, 0, 0, 0, 0, 1, false, none⟩,
           ⟨"b", 100, 100, 0, 0, 0, 0, 0, 0, 1, false, none⟩,
           ⟨"c", 50, 50, 0, 0, 0, 0, 0, 0, 1, false, none⟩]).map Prod.snd ∧
        ∀ b ∈ (List.zipWith trackInterval
          [⟨"a", 1, 1, 16, List.replicate 1000 0⟩, ⟨"b", 1, 1, 16, List.replicate 1000 0⟩,
           ⟨"c", 1, 1, 16, List.replicate 850 0⟩]
          [⟨"a", 0, 0, 0, 0, 0, 0, 0, 0, 1, false, none⟩,
           ⟨"b", 100, 100, 0, 0, 0, 0, 0, 0, 1, false, none⟩,
           ⟨"c", 50, 50, 0, 0, 0, 0, 0, 0, 1, false, none⟩]).map Prod.snd, e ≤ b) ∧
      (e ≤ s → findOverlappingRegion
          [⟨"a", 1, 1, 16, List.replicate 1000 0⟩, ⟨"b", 1, 1, 16, List.replicate 1000 0⟩,
           ⟨"c", 1, 1, 16, List.replicate 850 0⟩]
          [⟨"a", 0, 0, 0, 0, 0, 0, 0, 0, 1, false, none⟩,
           ⟨"b", 100, 100, 0, 0, 0, 0, 0, 0, 1, false, none⟩,
           ⟨"c", 50, 50, 0, 0, 0, 0, 0, 0, 1, false, none⟩] 1 =
        .error "no overlapping region found after coarse alignment") ∧
      (s < e → findOverlappingRegion
          [⟨"a", 1, 1, 16, List.replicate 1000 0⟩, ⟨"b", 1, 1, 16, List.replicate 1000 0⟩,
           ⟨"c", 1, 1, 16, List.replicate 850 0⟩]
          [⟨"a", 0, 0, 0, 0, 0, 0, 0, 0, 1, false, none⟩,
           ⟨"b", 100, 100, 0, 0, 0, 0, 0, 0, 1, false, none⟩,
           ⟨"c", 50, 50, 0, 0, 0, 0, 0, 0, 1, false, none⟩] 1 =
        .ok ⟨s, e, ((e - s : ℤ) : ℚ) / ((1 : ℤ) : ℚ)⟩)) ∧
    findOverlappingRegion
      [⟨"a", 1, 1, 16, List.replicate 1000 0⟩, ⟨"b", 1, 1, 16, List.replicate 1000 0⟩,
       ⟨"c", 1, 1, 16, List.replicate 850 0⟩]
      [⟨"a", 0, 0, 0, 0, 0, 0, 0, 0, 1, false, none⟩,
       ⟨"b", 100, 100, 0, 0, 0, 0, 0, 0, 1, false, none⟩,
       ⟨"c", 50, 50, 0, 0, 0, 0, 0, 0, 1, false, none⟩] 1 = .ok ⟨100, 900, 800⟩ := by
  refine ⟨List.cons_ne_nil _ _,
    findOverlappingRegion_spec _ _ 1 (List.cons_ne_nil _ _) rfl, ?_⟩
  norm_num [findOverlappingRegion, trackInterval, min_def, max_def]

/-! ## C3: DetectOffset functional specification -/

/-- C3: `DetectOffset` errs exactly when the (pre-downsampling) mixed or
local signal is empty; on non-empty inputs it returns the correlation
peak index (over the downsampled, normalized signals) scaled back by the
downsample factor, and the peak value divided by the length of the
normalized downsampled local signal as confidence. -/
theorem detectOffset_spec (mixed localData : List ℚ) (rate segDur factor : ℤ) :
    ((∃ e, DetectOffset mixed localData rate segDur factor = .error e) ↔
      mixed = [] ∨ localData = []) ∧
    (mixed ≠ [] → localData ≠ [] →
      DetectOffset mixed localData rate segDur factor =
        .ok { OffsetSamples :=
                ((findMaxPeak (crossCorrelateFFT (normalize (downsample mixed factor))
                  (normalize (downsample localData factor)))).1 : ℤ) * factor
              OffsetSeconds :=
                ((((findMaxPeak (crossCorrelateFFT (normalize (downsample mixed factor))
                  (normalize (downsample localData factor)))).1 : ℤ) * factor : ℤ) : ℚ) /
                  (rate : ℚ)
              Confidence :=
                (findMaxPeak (crossCorrelateFFT (normalize (downsample mixed factor))
                  (normalize (downsample localData factor)))).2 /
                  ((normalize (downsample localData factor)).length : ℚ) }) := by
  constructor
  · constructor
    · rintro ⟨e, he⟩
      by_contra hcon
      push_neg at hcon
      obtain ⟨hm, hl⟩ := hcon
      rw [DetectOffset, if_neg (by simpa using hm), if_neg (by simpa using hl)] at he
      cases he
    · rintro (h | h)
      · subst h
        exact ⟨"mixed audio data is empty", by simp [DetectOffset]⟩
      · subst h
        by_cases hm : mixed.length = 0
        · exact ⟨"mixed audio data is empty", by simp [DetectOffset, hm]⟩
        · exact ⟨"local audio data is empty", by simp [DetectOffset, hm]⟩
  · intro hm hl
    rw [DetectOffset, if_neg (by simpa using hm), if_neg (by simpa using hl)]

/-- Witness for C3 at `mixed = [0,1]`, `local = [1,0]`, factor 1. -/
theorem detectOffset_spec_witness :
    (([0, 1] : List ℚ) ≠ [] ∧ ([1, 0] : List ℚ) ≠ []) ∧
    DetectOffset [0, 1] [1, 0] 1 0 1 =
      .ok { OffsetSamples :=
              ((findMaxPeak (crossCorrelateFFT (normalize (downsample [0, 1] 1))
                (normalize (downsample [1, 0] 1)))).1 : ℤ) * 1
            OffsetSeconds :=
              ((((findMaxPeak (crossCorrelateFFT (normalize (downsample [0, 1] 1))
                (normalize (downsample [1, 0] 1)))).1 : ℤ) * 1 : ℤ) : ℚ) / ((1 : ℤ) : ℚ)
            Confidence :=
              (findMaxPeak (crossCorrelateFFT (normalize (downsample [0, 1] 1))
                (normalize (downsample [1, 0] 1)))).2 /
                ((normalize (downsample [1, 0] 1)).length : ℚ) } :=
  ⟨⟨by simp, by simp⟩,
   (detectOffset_spec [0, 1] [1, 0] 1 0 1).2 (by simp) (by simp)⟩

/-! ## C7: sign of the coarse offset -/

/-- `math.Sqrt` evaluation used by the concrete correlation runs. -/
lemma sqrt_quarter : Rat.sqrt (1/4) = 1/2 := by
  have h : (1/4 : ℚ) = (1/2) * (1/2) := by norm_num
  rw [h, Rat.sqrt_eq]
  norm_num

/-- `normalize [0, 1]`: mean 1/2, standard deviation 1/2. -/
lemma normalize_eval_01 : normalize [0, 1] = [-1, 1] := by
  rw [normalize, if_neg (by simp)]
  norm_num [sqrt_quarter]

/-- `normalize [1, 0]`: mean 1/2, standard deviation 1/2. -/
lemma normalize_eval_10 : normalize [1, 0] = [1, -1] := by
  rw [normalize, if_neg (by simp)]
  norm_num [sqrt_quarter]

/-- The circular cross-correlation of the two normalized two-sample
signals, truncated to length 3. -/
lemma crossCorrelate_eval : crossCorrelateFFT [-1, 1] [1, -1] = [-2, 1, 0] := by
  rw [crossCorrelateFFT, if_neg (by simp)]
  norm_num [nextPowerOfTwo, nextPowerOfTwoAux, padToSize, List.range_succ,
    Finset.sum_range_succ, List.getD]

/-- The correlation peak of `[-2, 1, 0]` sits at index 1 with value 1. -/
lemma findMaxPeak_eval : findMaxPeak [-2, 1, 0] = (1, 1) := by
  rw [findMaxPeak]
  norm_num [List.enum, List.foldl]

/-- Concrete `DetectOffset` run on `mixed = [0,1]`, `local = [1,0]` for
any `factor ≤ 1` (where downsampling is the identity): peak index 1,
confidence 1/2, offset `1 * factor`. -/
lemma detectOffset_small_eval (factor : ℤ) (hfac : factor ≤ 1) :
    DetectOffset [0, 1] [1, 0] 1 0 factor = .ok ⟨factor, (factor : ℚ), 1/2⟩ := by
  rw [DetectOffset, if_neg (by simp), if_neg (by simp)]
  simp only [downsample, if_pos hfac]
  rw [normalize_eval_01, normalize_eval_10, crossCorrelate_eval, findMaxPeak_eval]
  norm_num

/-- C7 counterexample: `DetectOffset` applied with the (Go `int`)
downsample factor `-2` — identity downsampling, then the peak index is
multiplied by the negative factor — returns a negative `OffsetSamples`
on non-empty inputs. -/
theorem detectOffset_nonneg_cex :
    DetectOffset [0, 1] [1, 0] 1 0 (-2) = .ok ⟨-2, -2, 1/2⟩ ∧ (-2 : ℤ) < 0 := by
  constructor
  · rw [detectOffset_small_eval (-2) (by norm_num)]
    norm_num
  · norm_num

/-- C7 (amended): for every pair of non-empty input signals and every
nonnegative downsampleFactor, `DetectOffset` returns
`OffsetSamples ≥ 0`: the peak index over the truncated correlation
sequence is a list index, hence nonnegative, and it is multiplied by the
nonnegative factor. -/
theorem detectOffset_nonneg (mixed localData : List ℚ) (rate segDur factor : ℤ)
    (hf : 0 ≤ factor) (res : OffsetResult)
    (hok : DetectOffset mixed localData rate segDur factor = .ok res) :
    0 ≤ res.OffsetSamples := by
  by_cases hm : mixed.length = 0
  · rw [DetectOffset, if_pos hm] at hok
    cases hok
  by_cases hl : localData.length = 0
  · rw [DetectOffset, if_neg hm, if_pos hl] at hok
    cases hok
  rw [DetectOffset, if_neg hm, if_neg hl] at hok
  injection hok with hok
  rw [← hok]
  exact mul_nonneg (Int.natCast_nonneg _) hf

/-- Witness for C7 at factor 1 on the concrete two-sample signals. -/
theorem detectOffset_nonneg_witness :
    (0 : ℤ) ≤ 1 ∧ DetectOffset [0, 1] [1, 0] 1 0 1 = .ok ⟨1, 1, 1/2⟩ ∧
    0 ≤ (⟨1, 1, 1/2⟩ : OffsetResult).OffsetSamples :=
  ⟨by norm_num, by rw [detectOffset_small_eval 1 (le_refl 1)]; norm_num,
   detectOffset_nonneg [0, 1] [1, 0] 1 0 1 (by norm_num) ⟨1, 1, 1/2⟩
     (by rw [detectOffset_small_eval 1 (le_refl 1)]; norm_num)⟩

/-! ## FinetuneOffsets infrastructure (C2, C5, C8) -/

/-- `finetuneTrack` never touches the coarse fields: path, coarse offset
(samples and seconds) and detection confidence are returned unchanged in
every branch. -/
lemma finetuneTrack_frame (ms : List ℚ) (s e rate : ℤ) (w : WAVData) (fo : FileOffset) :
    (finetuneTrack ms s e rate w fo).Path = fo.Path ∧
    (finetuneTrack ms s e rate w fo).OffsetSamples = fo.OffsetSamples ∧
    (finetuneTrack ms s e rate w fo).OffsetSeconds = fo.OffsetSeconds ∧
    (finetuneTrack ms s e rate w fo).Confidence = fo.Confidence := by
  unfold finetuneTrack
  dsimp only
  split
  · exact ⟨rfl, rfl, rfl, rfl⟩
  · split
    · exact ⟨rfl, rfl, rfl, rfl⟩
    · split
      · exact ⟨rfl, rfl, rfl, rfl⟩
      · exact ⟨rfl, rfl, rfl, rfl⟩

/-- Branch analysis of `finetuneTrack`: the track either carries a skip
record and keeps its coarse offset as final, or carries the sign-inverted
raw `DetectOffset` result of its extracted segment, added to the coarse
offset. -/
lemma finetuneTrack_char (ms : List ℚ) (s e rate : ℤ) (w : WAVData) (fo : FileOffset) :
    ∃ fr, (finetuneTrack ms s e rate w fo).FinetuneResult = some fr ∧
      ((fr.Skipped = true ∧
        (finetuneTrack ms s e rate w fo).FinalOffsetSamples = fo.OffsetSamples ∧
        (finetuneTrack ms s e rate w fo).FinalOffsetSeconds = fo.OffsetSeconds) ∨
       (fr.Skipped = false ∧
        ∃ localSegment res,
          extractSegment (ToMono w.Data w.Channels) (s - fo.OffsetSamples)
            (e - fo.OffsetSamples) = .ok localSegment ∧
          DetectOffset ms localSegment rate 0 1 = .ok res ∧
          fr.FineAdjustmentSamples = -res.OffsetSamples ∧
          fr.FineAdjustmentSeconds = -res.OffsetSeconds ∧
          (finetuneTrack ms s e rate w fo).FineAdjustmentSamples = -res.OffsetSamples ∧
          (finetuneTrack ms s e rate w fo).FineAdjustmentSeconds = -res.OffsetSeconds ∧
          (finetuneTrack ms s e rate w fo).FinalOffsetSamples =
            fo.OffsetSamples + -res.OffsetSamples ∧
          (finetuneTrack ms s e rate w fo).FinalOffsetSeconds =
            fo.OffsetSeconds + -res.OffsetSeconds)) := by
  unfold finetuneTrack
  dsimp only
  split
  · exact ⟨_, rfl, Or.inl ⟨rfl, rfl, rfl⟩⟩
  · split
    · exact ⟨_, rfl, Or.inl ⟨rfl, rfl, rfl⟩⟩
    · rename_i localSegment hseg
      split
      · exact ⟨_, rfl, Or.inl ⟨rfl, rfl, rfl⟩⟩
      · rename_i res hres
        exact ⟨_, rfl, Or.inr ⟨rfl,
          localSegment, res, hseg, hres, rfl, rfl, rfl, rfl, rfl, rfl⟩⟩

/-- The two successful shapes of `FinetuneOffsets`: either segment
selection fails and every track is mapped to a skip record keeping its
coarse offset, or the per-track loop runs and the padding is
recalculated over its results. -/
lemma finetuneOffsets_ok_cases (mixed : List ℚ) (files : List WAVData)
    (fos : List FileOffset) (rate : ℤ) (out : List FileOffset)
    (hok : FinetuneOffsets mixed files fos rate = .ok out) :
    (∃ overlap e, findOverlappingRegion files fos rate = .ok overlap ∧
      selectFinetuneSegment overlap 60 30 rate = .error e ∧
      out = fos.map fun fo =>
        { fo with
          FinetuneResult := some
            { FineAdjustmentSamples := 0, FineAdjustmentSeconds := 0, Confidence := 0
              SegmentUsed := ⟨0, 0, 0⟩, Skipped := true, SkipReason := e }
          FinalOffsetSamples := fo.OffsetSamples
          FinalOffsetSeconds := fo.OffsetSeconds }) ∨
    (∃ overlap segStart segEnd mixedSegment,
      findOverlappingRegion files fos rate = .ok overlap ∧
      selectFinetuneSegment overlap 60 30 rate = .ok (segStart, segEnd) ∧
      extractSegment mixed segStart segEnd = .ok mixedSegment ∧
      recalculatePadding
        (List.zipWith (finetuneTrack mixedSegment segStart segEnd rate) files fos)
        rate = .ok out) := by
  unfold FinetuneOffsets at hok
  split at hok
  · cases hok
  · rename_i overlap hov
    split at hok
    · rename_i e hsel
      injection hok with hok
      exact Or.inl ⟨overlap, e, hov, hsel, hok.symm⟩
    · rename_i segStart segEnd hsel
      split at hok
      · cases hok
      · rename_i ms hms
        exact Or.inr ⟨overlap, segStart, segEnd, ms, hov, hsel, hms, hok⟩

/-! ## C5: skip path on a too-small overlap -/

/-- C5: when the overlap is shorter than the 30-second minimum,
`FinetuneOffsets` succeeds (no error) and skips every track: each final
offset equals the coarse offset and each track carries a skip record
with a non-empty reason. -/
theorem finetuneOffsets_skip_spec (mixed : List ℚ) (files : List WAVData)
    (fos : List FileOffset) (rate : ℤ) (overlap : OverlapRegion)
    (hov : findOverlappingRegion files fos rate = .ok overlap)
    (hsmall : overlap.EndSample - overlap.StartSample < intOfRat ((30 : ℚ) * (rate : ℚ))) :
    ∃ out, FinetuneOffsets mixed files fos rate = .ok out ∧
      out.length = fos.length ∧
      ∀ (i : ℕ) (hi : i < out.length) (hj : i < fos.length),
        out[i].FinalOffsetSamples = fos[i].OffsetSamples ∧
        out[i].FinalOffsetSeconds = fos[i].OffsetSeconds ∧
        ∃ fr, out[i].FinetuneResult = some fr ∧ fr.Skipped = true ∧ fr.SkipReason ≠ "" := by
  have hsel : selectFinetuneSegment overlap 60 30 rate =
      .error "overlap duration is less than minimum" := by
    rw [selectFinetuneSegment]
    dsimp only
    rw [if_pos hsmall]
  refine ⟨fos.map (fun fo =>
      { fo with
        FinetuneResult := some
          { FineAdjustmentSamples := 0, FineAdjustmentSeconds := 0, Confidence := 0
            SegmentUsed := ⟨0, 0, 0⟩, Skipped := true
            SkipReason := "overlap duration is less than minimum" }
        FinalOffsetSamples := fo.OffsetSamples
        FinalOffsetSeconds := fo.OffsetSeconds }), ?_, by simp, ?_⟩
  · simp only [FinetuneOffsets, hov, hsel]
  · intro i hi hj
    rw [List.getElem_map]
    exact ⟨rfl, rfl, _, rfl, rfl, by decide⟩

/-! ## C8: frame of FinetuneOffsets -/

/-- C8: `FinetuneOffsets` preserves, entry by entry, the path, the
coarse offset (samples and seconds) and the detection confidence; only
the fine-adjustment, final-offset, padding, earliest-flag and
fine-tune-result fields can change. -/
theorem finetuneOffsets_frame (mixed : List ℚ) (files : List WAVData)
    (fos : List FileOffset) (rate : ℤ) (out : List FileOffset)
    (hlen : files.length = fos.length)
    (hok : FinetuneOffsets mixed files fos rate = .ok out) :
    out.length = fos.length ∧
    ∀ (i : ℕ) (hi : i < out.length) (hj : i < fos.length),
      out[i].Path = fos[i].Path ∧
      out[i].OffsetSamples = fos[i].OffsetSamples ∧
      out[i].OffsetSeconds = fos[i].OffsetSeconds ∧
      out[i].Confidence = fos[i].Confidence := by
  rcases finetuneOffsets_ok_cases mixed files fos rate out hok with
    ⟨overlap, e, hov, hsel, hout⟩ | ⟨overlap, s, e, ms, hov, hsel, hms, hrecalc⟩
  · subst hout
    refine ⟨by simp, ?_⟩
    intro i hi hj
    rw [List.getElem_map]
    exact ⟨rfl, rfl, rfl, rfl⟩
  · obtain ⟨m, hmem, hle, hlen2, hidx⟩ := recalculatePadding_ok_char _ rate out hrecalc
    have hzlen : (List.zipWith (finetuneTrack ms s e rate) files fos).length = fos.length := by
      simp [hlen]
    rw [hzlen] at hlen2
    refine ⟨hlen2, ?_⟩
    intro i hi hj
    have hif : i < files.length := by omega
    have hzi : i < (List.zipWith (finetuneTrack ms s e rate) files fos).length := by
      rw [hzlen]; omega
    have hrec := hidx i hi hzi
    have hze : (List.zipWith (finetuneTrack ms s e rate) files fos)[i] =
        finetuneTrack ms s e rate files[i] fos[i] := List.getElem_zipWith
    have hframe := finetuneTrack_frame ms s e rate files[i] fos[i]
    rw [hze] at hrec
    simp only [hrec]
    exact ⟨hframe.1, hframe.2.1, hframe.2.2.1, hframe.2.2.2⟩

/-! ## C2: sign-inverted fine adjustment and final offset -/

/-- C2: every track in a successful `FinetuneOffsets` run carries a
fine-tune record; a track whose correlation succeeded stores the
sign-inverted raw `DetectOffset` result of its extracted segment as
adjustment and has `final = coarse + adjustment`; a skipped track's
final offset equals its coarse offset. -/
theorem finetuneOffsets_adjustment_spec (mixed : List ℚ) (files : List WAVData)
    (fos : List FileOffset) (rate : ℤ) (out : List FileOffset)
    (hlen : files.length = fos.length)
    (hok : FinetuneOffsets mixed files fos rate = .ok out) :
    out.length = fos.length ∧
    ∀ (i : ℕ) (hi : i < out.length) (hj : i < fos.length),
      ∃ fr, out[i].FinetuneResult = some fr ∧
        (fr.Skipped = true →
          out[i].FinalOffsetSamples = fos[i].OffsetSamples ∧
          out[i].FinalOffsetSeconds = fos[i].OffsetSeconds) ∧
        (fr.Skipped = false →
          ∃ segStart segEnd mixedSegment localSegment res,
            extractSegment mixed segStart segEnd = .ok mixedSegment ∧
            extractSegment (ToMono (files.get ⟨i, by omega⟩).Data
                (files.get ⟨i, by omega⟩).Channels)
              (segStart - fos[i].OffsetSamples) (segEnd - fos[i].OffsetSamples) =
              .ok localSegment ∧
            DetectOffset mixedSegment localSegment rate 0 1 = .ok res ∧
            fr.FineAdjustmentSamples = -res.OffsetSamples ∧
            fr.FineAdjustmentSeconds = -res.OffsetSeconds ∧
            out[i].FineAdjustmentSamples = -res.OffsetSamples ∧
            out[i].FineAdjustmentSeconds = -res.OffsetSeconds ∧
            out[i].FinalOffsetSamples =
              fos[i].OffsetSamples + out[i].FineAdjustmentSamples ∧
            out[i].FinalOffsetSeconds =
              fos[i].OffsetSeconds + out[i].FineAdjustmentSeconds) := by
  rcases finetuneOffsets_ok_cases mixed files fos rate out hok with
    ⟨overlap, e, hov, hsel, hout⟩ | ⟨overlap, s, e, ms, hov, hsel, hms, hrecalc⟩
  · subst hout
    refine ⟨by simp, ?_⟩
    intro i hi hj
    rw [List.getElem_map]
    refine ⟨_, rfl, fun _ => ⟨rfl, rfl⟩, fun hskip => ?_⟩
    simp at hskip
  · obtain ⟨m, hmem, hle, hlen2, hidx⟩ := recalculatePadding_ok_char _ rate out hrecalc
    have hzlen : (List.zipWith (finetuneTrack ms s e rate) files fos).length = fos.length := by
      simp [hlen]
    rw [hzlen] at hlen2
    refine ⟨hlen2, ?_⟩
    intro i hi hj
    have hif : i < files.length := by omega
    have hzi : i < (List.zipWith (finetuneTrack ms s e rate) files fos).length := by
      rw [hzlen]; omega
    have hrec := hidx i hi hzi
    have hze : (List.zipWith (finetuneTrack ms s e rate) files fos)[i] =
        finetuneTrack ms s e rate files[i] fos[i] := List.getElem_zipWith
    rw [hze] at hrec
    obtain ⟨fr, hfr, hcases⟩ := finetuneTrack_char ms s e rate files[i] fos[i]
    refine ⟨fr, by simp only [hrec]; exact hfr, ?_, ?_⟩
    · intro hskip
      rcases hcases with ⟨-, hfin, hfinsec⟩ | ⟨hns, -⟩
      · constructor
        · simp only [hrec]; exact hfin
        · simp only [hrec]; exact hfinsec
      · rw [hskip] at hns; cases hns
    · intro hns
      rcases hcases with ⟨hsk, -⟩ | ⟨-, localSegment, res, hseg, hres, hfra, hfrs,
        hadj, hadjsec, hfin, hfinsec⟩
      · rw [hns] at hsk; cases hsk
      · refine ⟨s, e, ms, localSegment, res, hms, ?_, hres, hfra, hfrs, ?_, ?_, ?_, ?_⟩
        · simpa using hseg
        · simp only [hrec]; exact hadj
        · simp only [hrec]; exact hadjsec
        · simp only [hrec]; rw [hfin, hadj]
        · simp only [hrec]; rw [hfinsec, hadjsec]

/-! ## Concrete fine-tune scenario shared by the C2/C5/C8 witnesses:
two ten-sample tracks at coarse offsets 0 and 2 overlap for 8 samples,
below the 30-sample minimum at rate 1, so every track is skipped. -/

def witTrackA : WAVData := ⟨"a", 1, 1, 16, List.replicate 10 0⟩

def witTrackB : WAVData := ⟨"b", 1, 1, 16, List.replicate 10 0⟩

def witFoA : FileOffset := ⟨"a", 0, 0, 0, 0, 0, 0, 0, 0, 1, false, none⟩

def witFoB : FileOffset := ⟨"b", 2, 2, 0, 0, 0, 0, 0, 0, 1, false, none⟩

lemma witOverlap_eval :
    findOverlappingRegion [witTrackA, witTrackB] [witFoA, witFoB] 1 = .ok ⟨2, 10, 8⟩ := by
  norm_num [findOverlappingRegion, trackInterval, witTrackA, witTrackB, witFoA, witFoB,
    min_def, max_def]

lemma intOfRat_thirty : intOfRat ((30 : ℚ) * ((1 : ℤ) : ℚ)) = 30 := by
  norm_num [intOfRat, Rat.num_ofNat, Rat.den_ofNat]

lemma witSmall_fact :
    (⟨2, 10, 8⟩ : OverlapRegion).EndSample - (⟨2, 10, 8⟩ : OverlapRegion).StartSample <
      intOfRat ((30 : ℚ) * ((1 : ℤ) : ℚ)) := by
  rw [intOfRat_thirty]
  norm_num

lemma witSelect_eval :
    selectFinetuneSegment ⟨2, 10, 8⟩ 60 30 1 =
      .error "overlap duration is less than minimum" := by
  rw [selectFinetuneSegment]
  dsimp only
  rw [if_pos witSmall_fact]

/-- The output of the skip run: both tracks keep their coarse offsets as
final and carry the selection error as skip reason. -/
def witOut : List FileOffset :=
  [⟨"a", 0, 0, 0, 0, 0, 0, 0, 0, 1, false,
    some ⟨0, 0, 0, ⟨0, 0, 0⟩, true, "overlap duration is less than minimum"⟩⟩,
   ⟨"b", 2, 2, 0, 0, 2, 2, 0, 0, 1, false,
    some ⟨0, 0, 0, ⟨0, 0, 0⟩, true, "overlap duration is less than minimum"⟩⟩]

lemma witFinetune_eval :
    FinetuneOffsets (List.replicate 20 0) [witTrackA, witTrackB] [witFoA, witFoB] 1 =
      .ok witOut := by
  simp only [FinetuneOffsets, witOverlap_eval, witSelect_eval]
  simp only [List.map, witFoA, witFoB, witOut]

/-- Witness for C5 on the concrete skip scenario. -/
theorem finetuneOffsets_skip_spec_witness :
    findOverlappingRegion [witTrackA, witTrackB] [witFoA, witFoB] 1 = .ok ⟨2, 10, 8⟩ ∧
    ((⟨2, 10, 8⟩ : OverlapRegion).EndSample - (⟨2, 10, 8⟩ : OverlapRegion).StartSample <
      intOfRat ((30 : ℚ) * ((1 : ℤ) : ℚ))) ∧
    (∃ out, FinetuneOffsets (List.replicate 20 0) [witTrackA, witTrackB]
        [witFoA, witFoB] 1 = .ok out ∧
      out.length = [witFoA, witFoB].length ∧
      ∀ (i : ℕ) (hi : i < out.length) (hj : i < [witFoA, witFoB].length),
        out[i].FinalOffsetSamples = [witFoA, witFoB][i].OffsetSamples ∧
        out[i].FinalOffsetSeconds = [witFoA, witFoB][i].OffsetSeconds ∧
        ∃ fr, out[i].FinetuneResult = some fr ∧ fr.Skipped = true ∧ fr.SkipReason ≠ "") :=
  ⟨witOverlap_eval, witSmall_fact,
   finetuneOffsets_skip_spec (List.replicate 20 0) [witTrackA, witTrackB]
     [witFoA, witFoB] 1 ⟨2, 10, 8⟩ witOverlap_eval witSmall_fact⟩

/-- Witness for C8 on the concrete skip scenario. -/
theorem finetuneOffsets_frame_witness :
    [witTrackA, witTrackB].length = [witFoA, witFoB].length ∧
    FinetuneOffsets (List.replicate 20 0) [witTrackA, witTrackB] [witFoA, witFoB] 1 =
      .ok witOut ∧
    (witOut.length = [witFoA, witFoB].length ∧
      ∀ (i : ℕ) (hi : i < witOut.length) (hj : i < [witFoA, witFoB].length),
        witOut[i].Path = [witFoA, witFoB][i].Path ∧
        witOut[i].OffsetSamples = [witFoA, witFoB][i].OffsetSamples ∧
        witOut[i].OffsetSeconds = [witFoA, witFoB][i].OffsetSeconds ∧
        witOut[i].Confidence = [witFoA, witFoB][i].Confidence) :=
  ⟨rfl, witFinetune_eval,
   finetuneOffsets_frame (List.replicate 20 0) [witTrackA, witTrackB] [witFoA, witFoB] 1
     witOut rfl witFinetune_eval⟩

/-- Witness for C2 on the concrete skip scenario (the skipped branch of
the per-track disjunction is exercised). -/
theorem finetuneOffsets_adjustment_spec_witness :
    [witTrackA, witTrackB].length = [witFoA, witFoB].length ∧
    FinetuneOffsets (List.replicate 20 0) [witTrackA, witTrackB] [witFoA, witFoB] 1 =
      .ok witOut ∧
    (witOut.length = [witFoA, witFoB].length ∧
      ∀ (i : ℕ) (hi : i < witOut.length) (hj : i < [witFoA, witFoB].length),
        ∃ fr, witOut[i].FinetuneResult = some fr ∧
          (fr.Skipped = true →
            witOut[i].FinalOffsetSamples = [witFoA, witFoB][i].OffsetSamples ∧
            witOut[i].FinalOffsetSeconds = [witFoA, witFoB][i].OffsetSeconds) ∧
          (fr.Skipped = false →
            ∃ segStart segEnd mixedSegment localSegment res,
              extractSegment (List.replicate 20 0) segStart segEnd = .ok mixedSegment ∧
              extractSegment
                (ToMono ([witTrackA, witTrackB].get ⟨i, by simpa using hj⟩).Data
                  ([witTrackA, witTrackB].get ⟨i, by simpa using hj⟩).Channels)
                (segStart - [witFoA, witFoB][i].OffsetSamples)
                (segEnd - [witFoA, witFoB][i].OffsetSamples) = .ok localSegment ∧
              DetectOffset mixedSegment localSegment 1 0 1 = .ok res ∧
              fr.FineAdjustmentSamples = -res.OffsetSamples ∧
              fr.FineAdjustmentSeconds = -res.OffsetSeconds ∧
              witOut[i].FineAdjustmentSamples = -res.OffsetSamples ∧
              witOut[i].FineAdjustmentSeconds = -res.OffsetSeconds ∧
              witOut[i].FinalOffsetSamples =
                [witFoA, witFoB][i].OffsetSamples + witOut[i].FineAdjustmentSamples ∧
              witOut[i].FinalOffsetSeconds =
                [witFoA, witFoB][i].OffsetSeconds + witOut[i].FineAdjustmentSeconds)) :=
  ⟨rfl, witFinetune_eval,
   finetuneOffsets_adjustment_spec (List.replicate 20 0) [witTrackA, witTrackB]
     [witFoA, witFoB] 1 witOut rfl witFinetune_eval⟩

end Clapless
